import Mathlib

/-!
Verification development for a console support-agent demo (single Python
source file). The embedding below translates the programs pure logic:
the output guard (a regex substitution), the keyword classifier, the
gated action handlers, the per-turn dispatch of the CLI loop, and the
session-loop exit test. Text is modelled over ASCII semantics: Python
lower(), strip(), the regex character class for word characters and the
case-insensitive matching of the banned-phrase pattern are interpreted
on ASCII, which covers every keyword and message the program uses.
-/

/-! ## Character utilities (ASCII model of Python str.lower, str.strip, regex word chars) -/

/-- ASCII uppercase letter test, by code point. -/
def isUpperA (c : Char) : Bool := decide (65 ≤ c.toNat ∧ c.toNat ≤ 90)

/-- ASCII model of Python lowercasing of one character. -/
def lowerChar (c : Char) : Char := if isUpperA c then Char.ofNat (c.toNat + 32) else c

/-- ASCII model of the regex word-character class: letters, digits, underscore. -/
def isWordChar (c : Char) : Bool :=
  decide ((97 ≤ c.toNat ∧ c.toNat ≤ 122) ∨ (65 ≤ c.toNat ∧ c.toNat ≤ 90) ∨
    (48 ≤ c.toNat ∧ c.toNat ≤ 57) ∨ c.toNat = 95)

/-- ASCII whitespace as stripped by Python str.strip(). -/
def isSpaceA (c : Char) : Bool :=
  decide (c.toNat = 32 ∨ c.toNat = 9 ∨ c.toNat = 10 ∨ c.toNat = 13 ∨ c.toNat = 11 ∨ c.toNat = 12)

/-- Lowercase a character list, the model of Python str.lower(). -/
def lowerL (l : List Char) : List Char := l.map lowerChar

/-- Model of Python str.lower() on strings. -/
def pyLower (s : String) : String := String.mk (lowerL s.data)

/-- Model of Python str.strip(): drop leading and trailing whitespace. -/
def pyStrip (s : String) : String :=
  String.mk (((s.data.dropWhile isSpaceA).reverse.dropWhile isSpaceA).reverse)

/-! ## Substring search (model of the Python "in" operator and of re.search on
literal alternations) -/

/-- Does the second list start with the first (exact characters)? -/
def startsWithL : List Char → List Char → Bool
  | [], _ => true
  | _ :: _, [] => false
  | x :: xs, c :: cs => x == c && startsWithL xs cs

/-- Does the needle occur as a contiguous substring of the haystack?
Model of the Python expression (needle in haystack). -/
def containsSub (w : List Char) : List Char → Bool
  | [] => startsWithL w []
  | c :: cs => startsWithL w (c :: cs) || containsSub w cs

/-- Mathematical substring statement used to state the classifier claims. -/
def SubstringOf (w t : List Char) : Prop := ∃ a b, t = a ++ w ++ b

/-! ## The output guard: model of re.sub over the compiled pattern
BANNED_PHRASES, a word-bounded case-insensitive alternation of the literal
word given by sorryPatL and the stem given by apologizL followed by any run
of word characters. -/

/-- Tail of the first banned alternative after its initial character. -/
def orryL : List Char := ['o', 'r', 'r', 'y']

/-- The first banned alternative of the pattern, as lowercase characters. -/
def sorryPatL : List Char := 's' :: orryL

/-- Tail of the second banned stem after its initial character. -/
def pologizL : List Char := ['p', 'o', 'l', 'o', 'g', 'i', 'z']

/-- The second banned stem of the pattern, as lowercase characters. -/
def apologizL : List Char := 'a' :: pologizL

/-- The replacement text inserted by the guard. -/
def removedL : List Char := ['(', 'r', 'e', 'm', 'o', 'v', 'e', 'd', ')']

/-- Case-insensitive test that the second list starts with the given
lowercase pattern. -/
def startsWithCI : List Char → List Char → Bool
  | [], _ => true
  | _ :: _, [] => false
  | x :: xs, c :: cs => lowerChar c == x && startsWithCI xs cs

/-- A word boundary follows here: end of text or a non-word character. -/
def boundaryAfter : List Char → Bool
  | [] => true
  | d :: _ => !isWordChar d

/-- Length of the maximal leading run of word characters (the greedy match
of the word-character star in the pattern). -/
def wordRun : List Char → Nat
  | [] => 0
  | d :: ds => if isWordChar d then wordRun ds + 1 else 0

/-- Length of the banned-pattern match anchored at the head of the list,
given whether the preceding character was a word character (for the leading
word boundary). The trailing boundary of the first alternative is checked
explicitly; for the stem alternative the greedy run makes it automatic. -/
def matchAt : Bool → List Char → Option Nat
  | true, _ => none
  | false, s =>
    if startsWithCI sorryPatL s && boundaryAfter (List.drop 5 s) then some 5
    else if startsWithCI apologizL s then some (8 + wordRun (List.drop 8 s))
    else none

/-- Fuelled scanner performing the left-to-right non-overlapping
substitution of re.sub: at each position, replace a banned match with the
fixed marker and resume after it, else keep the character. Fuel at least
the list length makes the fuel case unreachable. -/
def subAuxF : Nat → Bool → List Char → List Char
  | 0, _, _ => []
  | _ + 1, _, [] => []
  | f + 1, p, c :: cs =>
    match matchAt p (c :: cs) with
    | some n => removedL ++ subAuxF f true (List.drop (n - 1) cs)
    | none => c :: subAuxF f (isWordChar c) cs

/-- Model of guard_output: return falsy (empty) input unchanged, else
substitute every banned match. -/
def guard_output (text : String) : String :=
  if text = "" then text
  else String.mk (subAuxF text.data.length false text.data)

/-- Does the banned pattern match anywhere in the list, threading the
word-boundary state? Used to state that no banned word remains. -/
def hasMatch : Bool → List Char → Bool
  | _, [] => false
  | p, c :: cs => (matchAt p (c :: cs)).isSome || hasMatch (isWordChar c) cs

example : guard_output "apology" = "apology" := by decide
example : guard_output "I am Sorry about that" = "I am (removed) about that" := by decide
example : guard_output "We APOLOGIZE, SoRRy" = "We (removed), (removed)" := by decide
example : guard_output "sorryx apologizing" = "sorryx (removed)" := by decide
example : guard_output "" = "" := by decide

/-! ## Classifier -/

/-- Billing keywords, in source order. -/
def billingKeywords : List String := ["refund", "invoice", "bill", "payment"]

/-- Technical keywords, in source order. -/
def techKeywords : List String := ["error", "crash", "down", "restart", "bug", "technical"]

/-- Model of classify_issue: lowercase the text, check billing keywords
first, then technical keywords, else general. -/
def classify_issue (user_text : String) : String :=
  let t := lowerL user_text.data
  if billingKeywords.any (fun w => containsSub w.data t) then "billing"
  else if techKeywords.any (fun w => containsSub w.data t) then "technical"
  else "general"

example : classify_issue "I want a REFUND for my crash" = "billing" := by decide
example : classify_issue "the app keeps crashing" = "technical" := by decide
example : classify_issue "how do I change my email" = "general" := by decide

/-! ## Session context and gated action handlers -/

/-- Model of the SupportContext pydantic model. The open extra bag carries
string values here; the program never reads or writes it, only its
preservation matters. -/
structure SupportContext where
  name : String := "Guest"
  is_premium_user : Bool := false
  issue_type : Option String := none
  last_agent : Option String := none
  extra : List (String × String) := []
deriving DecidableEq, Repr

/-- The dynamic gate attached to the refund tool. -/
def refund_is_enabled (ctx : SupportContext) : Bool := ctx.is_premium_user

/-- Model of the refund tool: gate failure is a normal textual result. The
global CTX of the source is passed explicitly; the unused string parameter
mirrors the dummy tool argument. -/
def refund (ctx : SupportContext) (dummy : String) : String :=
  if !(refund_is_enabled ctx) then "Refund tool disabled: premium membership required."
  else "Refund initiated for " ++ ctx.name ++ ". You will receive confirmation via email."

/-- The dynamic gate attached to the restart tool: only for a technical
issue type. -/
def restart_is_enabled (ctx : SupportContext) : Bool := ctx.issue_type == some "technical"

/-- Model of the restart_service tool. -/
def restart_service (ctx : SupportContext) (dummy : String) : String :=
  if !(restart_is_enabled ctx) then "Restart tool disabled: this request is not a technical issue."
  else "Service restart command sent. Please wait ~2 minutes and try again."

/-- Model of the get_invoice tool. -/
def get_invoice (ctx : SupportContext) (dummy : String) : String :=
  let tier := if ctx.is_premium_user then "Premium" else "Free"
  "Invoice for " ++ ctx.name ++ ": Plan=" ++ tier ++ ", Last payment: 2025-08-01, Amount: $19.00"

/-- Model of the check_service_status tool. -/
def check_service_status (ctx : SupportContext) (dummy : String) : String :=
  "All systems operational, no outages detected in your region."

/-! ## Dispatcher: one turn of the CLI loop -/

/-- Model of the triage normalisation: strip and lowercase the triage
output, then coerce anything outside the three valid categories to
general. -/
def normalizeTriage (o : String) : String :=
  let it := pyLower (pyStrip o)
  if it = "billing" ∨ it = "technical" ∨ it = "general" then it else "general"

/-- CLASSIFY phase: write the coerced category and the triage marker into
the context, and return the category. -/
def classifyPhase (ctx : SupportContext) (triage_final : String) : SupportContext × String :=
  let category := normalizeTriage triage_final
  ({ ctx with issue_type := some category, last_agent := some "triage" }, category)

/-- Patterns of the billing routing regex, literal alternatives. -/
def refundPats : List String := ["refund", "chargeback", "money back"]

/-- Patterns of the technical routing regex, literal alternatives. -/
def restartPats : List String := ["restart", "crash", "down", "error"]

/-- Model of re.search with the IGNORECASE flag over an alternation of
lowercase literal patterns: some alternative occurs in the lowercased
text. -/
def reSearchCI (pats : List String) (text : String) : Bool :=
  pats.any (fun p => containsSub p.data (lowerL text.data))

/-- ROUTE phase: derive the text handed to the selected responder. For
billing and technical it is a short hint; for general the raw text is
passed through. -/
def routeHint (issue_type : String) (user_text : String) : String :=
  if issue_type = "billing" then
    (if reSearchCI refundPats user_text then "refund" else "invoice")
  else if issue_type = "technical" then
    (if reSearchCI restartPats user_text then "restart" else "status")
  else user_text

/-- One turn of the loop body after the exit test. The responder outputs
are produced by the external agent runtime; they enter the model as the
oracle strings triage_raw and agent_raw, each sanitised by guard_output
exactly as run_with_context does. The result carries the updated context,
the routed text, and the sanitised final output. -/
def dispatchTurn (ctx : SupportContext) (user_text triage_raw agent_raw : String) :
    SupportContext × String × String :=
  let step1 := classifyPhase ctx (guard_output triage_raw)
  let ctx1 := step1.1
  let category := step1.2
  let hint := routeHint category user_text
  let final := guard_output agent_raw
  let ctx2 := { ctx1 with last_agent := ctx1.issue_type, issue_type := none }
  (ctx2, hint, final)

/-- Iterated turns of the session: each element carries the user line
(already stripped), the triage oracle and the responder oracle. -/
def runTurns : SupportContext → List (String × String × String) → SupportContext
  | ctx, [] => ctx
  | ctx, (u, t, a) :: rest => runTurns (dispatchTurn ctx u t a).1 rest

/-- One iteration of the session loop: strip the raw line, terminate when
the lowercased result is an exit token, otherwise dispatch the turn on the
stripped text. -/
def sessionStep (ctx : SupportContext) (line triage_raw agent_raw : String) :
    Option (SupportContext × String × String) :=
  let user_text := pyStrip line
  if pyLower user_text = "exit" ∨ pyLower user_text = "quit" then none
  else some (dispatchTurn ctx user_text triage_raw agent_raw)

example : routeHint "billing" "I want my money BACK" = "refund" := by decide
example : routeHint "billing" "question about my bill" = "invoice" := by decide
example : routeHint "technical" "the app keeps crashing" = "restart" := by decide
example : routeHint "technical" "is it slow today" = "status" := by decide
example : routeHint "general" "hello there" = "hello there" := by decide
example : normalizeTriage "  Billing " = "billing" := by decide
example : normalizeTriage "nonsense" = "general" := by decide
example : sessionStep {} "  EXIT " "x" "y" = none := by decide
example : (sessionStep {} "exit now" "billing" "ok").isSome = true := by decide

/-! ## Lemmas: substring search agrees with the mathematical statement -/

lemma startsWithL_iff (w : List Char) : ∀ l, startsWithL w l = true ↔ ∃ b, l = w ++ b := by
  induction w with
  | nil => intro l; simp [startsWithL]
  | cons x xs ih =>
    intro l
    cases l with
    | nil => simp [startsWithL]
    | cons c cs =>
      simp only [startsWithL, Bool.and_eq_true, beq_iff_eq, ih, List.cons_append,
        List.cons.injEq]
      constructor
      · rintro ⟨rfl, b, rfl⟩; exact ⟨b, rfl, rfl⟩
      · rintro ⟨b, rfl, rfl⟩; exact ⟨rfl, b, rfl⟩

lemma containsSub_iff (w : List Char) : ∀ t, containsSub w t = true ↔ SubstringOf w t := by
  intro t
  induction t with
  | nil =>
    simp only [containsSub, startsWithL_iff, SubstringOf]
    constructor
    · rintro ⟨b, h⟩
      exact ⟨[], b, by simpa using h⟩
    · rintro ⟨a, b, h⟩
      rw [List.append_assoc] at h
      rcases List.append_eq_nil.mp h.symm with ⟨rfl, h2⟩
      exact ⟨b, by simpa using h2.symm⟩
  | cons c cs ih =>
    simp only [containsSub, Bool.or_eq_true, startsWithL_iff, ih, SubstringOf]
    constructor
    · rintro (⟨b, h⟩ | ⟨a, b, h⟩)
      · exact ⟨[], b, by simpa using h⟩
      · exact ⟨c :: a, b, by simp [h]⟩
    · rintro ⟨a, b, h⟩
      cases a with
      | nil => exact Or.inl ⟨b, by simpa using h⟩
      | cons a0 as =>
        right
        refine ⟨as, b, ?_⟩
        have h2 : c = a0 ∧ cs = as ++ (w ++ b) := by simpa using h
        simpa using h2.2

/-! ## Lemmas: string append on the character-list view -/

lemma data_append (a b : String) : (a ++ b).data = a.data ++ b.data := by
  cases a; cases b; rfl

lemma refund_msgs_ne (nm : String) :
    ("Refund initiated for " ++ nm ++ ". You will receive confirmation via email.") ≠
      "Refund tool disabled: premium membership required." := by
  intro h
  have h2 := congrArg String.data h
  rw [data_append, data_append, List.append_assoc] at h2
  have h3 := congrArg (List.take 8) h2
  rw [List.take_append_of_le_length (by decide)] at h3
  exact absurd h3 (by decide)

/-! ## Claim theorems: classifier, handlers, routing, dispatcher -/

/-- C1: classify_issue is total and deterministic with values among
billing, technical and general; it returns billing exactly when the
lowercased text contains a billing keyword, technical exactly when it
contains no billing keyword but a technical keyword, and general exactly
when it contains neither, so a text with both kinds of keyword classifies
as billing. -/
theorem classify_issue_spec (s : String) :
    (classify_issue s = "billing" ∨ classify_issue s = "technical" ∨
      classify_issue s = "general") ∧
    (classify_issue s = "billing" ↔
      ∃ w ∈ billingKeywords, SubstringOf w.data (lowerL s.data)) ∧
    (classify_issue s = "technical" ↔
      (¬(∃ w ∈ billingKeywords, SubstringOf w.data (lowerL s.data)) ∧
        ∃ w ∈ techKeywords, SubstringOf w.data (lowerL s.data))) ∧
    (classify_issue s = "general" ↔
      (¬(∃ w ∈ billingKeywords, SubstringOf w.data (lowerL s.data)) ∧
        ¬(∃ w ∈ techKeywords, SubstringOf w.data (lowerL s.data)))) := by
  have hb : (billingKeywords.any (fun w => containsSub w.data (lowerL s.data)) = true) ↔
      ∃ w ∈ billingKeywords, SubstringOf w.data (lowerL s.data) := by
    simp [List.any_eq_true, containsSub_iff]
  have ht : (techKeywords.any (fun w => containsSub w.data (lowerL s.data)) = true) ↔
      ∃ w ∈ techKeywords, SubstringOf w.data (lowerL s.data) := by
    simp [List.any_eq_true, containsSub_iff]
  by_cases h1 : billingKeywords.any (fun w => containsSub w.data (lowerL s.data)) = true
  · have hc : classify_issue s = "billing" := by simp [classify_issue, h1]
    have hB := hb.mp h1
    refine ⟨Or.inl hc, ?_, ?_, ?_⟩
    · rw [hc]; exact ⟨fun _ => hB, fun _ => rfl⟩
    · rw [hc]
      constructor
      · intro hq; exact absurd hq (by decide)
      · rintro ⟨hnb, -⟩; exact absurd hB hnb
    · rw [hc]
      constructor
      · intro hq; exact absurd hq (by decide)
      · rintro ⟨hnb, -⟩; exact absurd hB hnb
  · by_cases h2 : techKeywords.any (fun w => containsSub w.data (lowerL s.data)) = true
    · have hc : classify_issue s = "technical" := by simp [classify_issue, h1, h2]
      have hT := ht.mp h2
      have hnB : ¬∃ w ∈ billingKeywords, SubstringOf w.data (lowerL s.data) :=
        fun hx => h1 (hb.mpr hx)
      refine ⟨Or.inr (Or.inl hc), ?_, ?_, ?_⟩
      · rw [hc]
        constructor
        · intro hq; exact absurd hq (by decide)
        · intro hx; exact absurd hx hnB
      · rw [hc]; exact ⟨fun _ => ⟨hnB, hT⟩, fun _ => rfl⟩
      · rw [hc]
        constructor
        · intro hq; exact absurd hq (by decide)
        · rintro ⟨-, hnt⟩; exact absurd hT hnt
    · have hc : classify_issue s = "general" := by simp [classify_issue, h1, h2]
      have hnB : ¬∃ w ∈ billingKeywords, SubstringOf w.data (lowerL s.data) :=
        fun hx => h1 (hb.mpr hx)
      have hnT : ¬∃ w ∈ techKeywords, SubstringOf w.data (lowerL s.data) :=
        fun hx => h2 (ht.mpr hx)
      refine ⟨Or.inr (Or.inr hc), ?_, ?_, ?_⟩
      · rw [hc]
        constructor
        · intro hq; exact absurd hq (by decide)
        · intro hx; exact absurd hx hnB
      · rw [hc]
        constructor
        · intro hq; exact absurd hq (by decide)
        · rintro ⟨-, hT2⟩; exact absurd hT2 hnT
      · rw [hc]; exact ⟨fun _ => ⟨hnB, hnT⟩, fun _ => rfl⟩

/-- C3: the refund handler returns the fixed disabled message exactly when
the context is not premium, and the confirmation embedding the context
name exactly when it is premium; both outcomes are ordinary return values
of a total function. -/
theorem refund_spec (ctx : SupportContext) (dummy : String) :
    (refund ctx dummy = "Refund tool disabled: premium membership required." ↔
      ctx.is_premium_user = false) ∧
    (refund ctx dummy =
        "Refund initiated for " ++ ctx.name ++ ". You will receive confirmation via email." ↔
      ctx.is_premium_user = true) := by
  cases h : ctx.is_premium_user with
  | false =>
    constructor
    · simp [refund, refund_is_enabled, h]
    · constructor
      · intro hEq; exact absurd hEq.symm (by simpa [refund, refund_is_enabled, h] using refund_msgs_ne ctx.name)
      · intro hTrue; cases hTrue
  | true =>
    constructor
    · constructor
      · intro hEq
        exact absurd (by simpa [refund, refund_is_enabled, h] using hEq) (refund_msgs_ne ctx.name)
      · intro hFalse; cases hFalse
    · simp [refund, refund_is_enabled, h]

/-- C4: the restart handler returns the fixed disabled message exactly when
the context issue type differs from technical, and the fixed confirmation
exactly when it equals technical; the gate is a pure function of the
context passed at each invocation, so it is re-evaluated every call. -/
theorem restart_service_spec (ctx : SupportContext) (dummy : String) :
    (restart_service ctx dummy =
        "Restart tool disabled: this request is not a technical issue." ↔
      ctx.issue_type ≠ some "technical") ∧
    (restart_service ctx dummy =
        "Service restart command sent. Please wait ~2 minutes and try again." ↔
      ctx.issue_type = some "technical") := by
  by_cases h : ctx.issue_type = some "technical"
  · constructor
    · simp [restart_service, restart_is_enabled, h]
    · simp [restart_service, restart_is_enabled, h]
  · constructor
    · simp [restart_service, restart_is_enabled, h]
    · simp [restart_service, restart_is_enabled, h]

/-- C5: in the ROUTE step, for the billing category the derived hint is
refund exactly when the raw text case-insensitively contains one of the
refund alternatives and invoice otherwise; for the technical category the
hint is restart exactly when the text contains one of the restart
alternatives and status otherwise; for the general category the raw text
itself is passed through. -/
theorem route_hint_spec (text : String) :
    (routeHint "billing" text = "refund" ↔
      ∃ p ∈ refundPats, SubstringOf p.data (lowerL text.data)) ∧
    (routeHint "billing" text = "invoice" ↔
      ¬∃ p ∈ refundPats, SubstringOf p.data (lowerL text.data)) ∧
    (routeHint "technical" text = "restart" ↔
      ∃ p ∈ restartPats, SubstringOf p.data (lowerL text.data)) ∧
    (routeHint "technical" text = "status" ↔
      ¬∃ p ∈ restartPats, SubstringOf p.data (lowerL text.data)) ∧
    routeHint "general" text = text := by
  have hr : (reSearchCI refundPats text = true) ↔
      ∃ p ∈ refundPats, SubstringOf p.data (lowerL text.data) := by
    simp [reSearchCI, List.any_eq_true, containsSub_iff]
  have hs : (reSearchCI restartPats text = true) ↔
      ∃ p ∈ restartPats, SubstringOf p.data (lowerL text.data) := by
    simp [reSearchCI, List.any_eq_true, containsSub_iff]
  refine ⟨?_, ?_, ?_, ?_, ?_⟩
  · by_cases h : reSearchCI refundPats text = true <;>
      simp [routeHint, h, hr.symm]
  · by_cases h : reSearchCI refundPats text = true <;>
      simp [routeHint, h, hr.symm]
  · by_cases h : reSearchCI restartPats text = true <;>
      simp [routeHint, h, hs.symm]
  · by_cases h : reSearchCI restartPats text = true <;>
      simp [routeHint, h, hs.symm]
  · simp [routeHint]

/-- C6: after a completed turn of the session loop the context issue type
is unset and the last agent field equals the category just handled in that
turn, namely the coerced classification of the sanitised triage output. -/
theorem turn_reset_spec (ctx : SupportContext) (u t a : String) :
    (dispatchTurn ctx u t a).1.issue_type = none ∧
    (dispatchTurn ctx u t a).1.last_agent = some (normalizeTriage (guard_output t)) := by
  constructor
  · rfl
  · rfl

/-- C7: the CLASSIFY step writes a coerced category into the context, so
the issue type held during the turn is always one of the three valid
categories; the written value is exactly the normalised triage output,
which equals billing or technical only when the stripped lowercased
output is that very word and falls back to general in every other case.
Classification is a total function and never fails. -/
theorem classify_phase_spec (ctx : SupportContext) (o : String) :
    ((classifyPhase ctx o).1.issue_type = some "billing" ∨
      (classifyPhase ctx o).1.issue_type = some "technical" ∨
      (classifyPhase ctx o).1.issue_type = some "general") ∧
    (classifyPhase ctx o).1.issue_type = some (normalizeTriage o) ∧
    (classifyPhase ctx o).1.last_agent = some "triage" ∧
    (normalizeTriage o = "billing" ↔ pyLower (pyStrip o) = "billing") ∧
    (normalizeTriage o = "technical" ↔ pyLower (pyStrip o) = "technical") ∧
    (normalizeTriage o = "general" ↔
      (pyLower (pyStrip o) = "general" ∨
        (pyLower (pyStrip o) ≠ "billing" ∧ pyLower (pyStrip o) ≠ "technical"))) := by
  by_cases hB : pyLower (pyStrip o) = "billing"
  · have hn : normalizeTriage o = "billing" := by simp [normalizeTriage, hB]
    refine ⟨Or.inl (by simp [classifyPhase, hn]), by simp [classifyPhase], rfl, ?_, ?_, ?_⟩
    · simp [hn, hB]
    · rw [hn]
      constructor
      · intro hq; exact absurd hq (by decide)
      · intro hq; rw [hB] at hq; exact absurd hq (by decide)
    · rw [hn]
      constructor
      · intro hq; exact absurd hq (by decide)
      · rintro (hq | ⟨hq, -⟩)
        · rw [hB] at hq; exact absurd hq (by decide)
        · exact absurd hB hq
  · by_cases hT : pyLower (pyStrip o) = "technical"
    · have hn : normalizeTriage o = "technical" := by simp [normalizeTriage, hT]
      refine ⟨Or.inr (Or.inl (by simp [classifyPhase, hn])), by simp [classifyPhase],
        rfl, ?_, ?_, ?_⟩
      · rw [hn]
        constructor
        · intro hq; exact absurd hq (by decide)
        · intro hq; rw [hT] at hq; exact absurd hq (by decide)
      · simp [hn, hT]
      · rw [hn]
        constructor
        · intro hq; exact absurd hq (by decide)
        · rintro (hq | ⟨-, hq⟩)
          · rw [hT] at hq; exact absurd hq (by decide)
          · exact absurd hT hq
    · have hn : normalizeTriage o = "general" := by
        by_cases hG : pyLower (pyStrip o) = "general"
        · simp [normalizeTriage, hG]
        · simp [normalizeTriage, hB, hT, hG]
      refine ⟨Or.inr (Or.inr (by simp [classifyPhase, hn])), by simp [classifyPhase],
        rfl, ?_, ?_, ?_⟩
      · rw [hn]
        constructor
        · intro hq; exact absurd hq (by decide)
        · intro hq; exact absurd hq hB
      · rw [hn]
        constructor
        · intro hq; exact absurd hq (by decide)
        · intro hq; exact absurd hq hT
      · rw [hn]; exact ⟨fun _ => Or.inr ⟨hB, hT⟩, fun _ => rfl⟩

/-- C9: across any sequence of completed turns only the issue type and
last agent fields of the context change: the name, the premium flag and
the extra bag at the end of the session equal their values at the start,
so the premium flag set once at session start never changes and the extra
bag is preserved for the whole session. -/
theorem session_frame_spec (ctx : SupportContext) (turns : List (String × String × String)) :
    (runTurns ctx turns).name = ctx.name ∧
    (runTurns ctx turns).is_premium_user = ctx.is_premium_user ∧
    (runTurns ctx turns).extra = ctx.extra := by
  induction turns generalizing ctx with
  | nil => exact ⟨rfl, rfl, rfl⟩
  | cons hd tl ih =>
    obtain ⟨u, t, a⟩ := hd
    have step := ih (dispatchTurn ctx u t a).1
    refine ⟨?_, ?_, ?_⟩
    · rw [show runTurns ctx ((u, t, a) :: tl) = runTurns (dispatchTurn ctx u t a).1 tl from rfl,
        step.1]; rfl
    · rw [show runTurns ctx ((u, t, a) :: tl) = runTurns (dispatchTurn ctx u t a).1 tl from rfl,
        step.2.1]; rfl
    · rw [show runTurns ctx ((u, t, a) :: tl) = runTurns (dispatchTurn ctx u t a).1 tl from rfl,
        step.2.2]; rfl

/-- C10: the session loop terminates on a line exactly when the stripped
and lowercased line equals exit or quit; any other line, including one
that merely contains an exit word, is dispatched as a normal turn on the
stripped text, and on a terminating line no classification or handler
runs because the step produces no turn at all. -/
theorem session_exit_spec (ctx : SupportContext) (line t a : String) :
    (sessionStep ctx line t a = none ↔
      (pyLower (pyStrip line) = "exit" ∨ pyLower (pyStrip line) = "quit")) ∧
    (sessionStep ctx line t a = none ∨
      sessionStep ctx line t a = some (dispatchTurn ctx (pyStrip line) t a)) ∧
    sessionStep ctx "exit now" t a = some (dispatchTurn ctx "exit now" t a) := by
  refine ⟨?_, ?_, ?_⟩
  · by_cases h : pyLower (pyStrip line) = "exit" ∨ pyLower (pyStrip line) = "quit"
    · simp [sessionStep, h]
    · simp [sessionStep, h]
  · by_cases h : pyLower (pyStrip line) = "exit" ∨ pyLower (pyStrip line) = "quit"
    · exact Or.inl (by simp [sessionStep, h])
    · exact Or.inr (by simp [sessionStep, h])
  · have h1 : pyStrip "exit now" = "exit now" := by decide
    have h2 : ¬(pyLower (pyStrip "exit now") = "exit" ∨
        pyLower (pyStrip "exit now") = "quit") := by decide
    simp only [sessionStep, h1]
    simp [sessionStep]
    exact ⟨by decide, by decide⟩

/-! ## Lemmas on the banned-pattern matcher -/

/-- Only lowercase ASCII letters appear in the banned patterns. -/
def lowerLetters (pat : List Char) : Prop := ∀ x ∈ pat, 97 ≤ x.toNat ∧ x.toNat ≤ 122

instance (pat : List Char) : Decidable (lowerLetters pat) := by
  unfold lowerLetters; infer_instance

lemma isWordChar_of_lowerChar_letter {c x : Char} (hx : 97 ≤ x.toNat ∧ x.toNat ≤ 122)
    (h : lowerChar c = x) : isWordChar c = true := by
  unfold lowerChar at h
  by_cases hu : isUpperA c = true
  · have hb : 65 ≤ c.toNat ∧ c.toNat ≤ 90 := by
      have := of_decide_eq_true (by simpa [isUpperA] using hu)
      exact this
    simp only [isWordChar, decide_eq_true_eq]
    omega
  · rw [if_neg hu] at h
    subst h
    simp only [isWordChar, decide_eq_true_eq]
    omega

lemma matchAt_true_eq (s : List Char) : matchAt true s = none := rfl

lemma matchAt_nil (p : Bool) : matchAt p [] = none := by cases p <;> rfl

lemma matchAt_nonword {d : Char} (hd : isWordChar d = false) (p : Bool) (u : List Char) :
    matchAt p (d :: u) = none := by
  cases p
  · have hs : (lowerChar d == 's') = false := by
      rw [beq_eq_false_iff_ne]
      intro h
      rw [isWordChar_of_lowerChar_letter (by decide) h] at hd
      cases hd
    have ha : (lowerChar d == 'a') = false := by
      rw [beq_eq_false_iff_ne]
      intro h
      rw [isWordChar_of_lowerChar_letter (by decide) h] at hd
      cases hd
    simp [matchAt, startsWithCI, sorryPatL, apologizL, hs, ha]
  · rfl

lemma startsWithCI_le_length (pat : List Char) :
    ∀ l, startsWithCI pat l = true → pat.length ≤ l.length := by
  induction pat with
  | nil => intro l _; simp
  | cons x xs ih =>
    intro l h
    cases l with
    | nil => cases h
    | cons c cs =>
      have h2 : startsWithCI xs cs = true := by
        have := h
        simp only [startsWithCI, Bool.and_eq_true] at this
        exact this.2
      simpa using Nat.succ_le_succ (ih cs h2)

lemma subAuxF_nil (f : Nat) (p : Bool) : subAuxF f p [] = [] := by cases f <;> rfl

lemma subAuxF_cons_true (f : Nat) (c : Char) (cs : List Char) :
    subAuxF (f + 1) true (c :: cs) = c :: subAuxF f (isWordChar c) cs := rfl

lemma startsWithCI_sub : ∀ pat : List Char, lowerLetters pat → ∀ (f : Nat) (l : List Char),
    l.length ≤ f → startsWithCI pat (subAuxF f true l) = startsWithCI pat l := by
  intro pat
  induction pat with
  | nil => intro _ f l _; rfl
  | cons x xs ih =>
    intro hpat f l hf
    cases l with
    | nil => rw [subAuxF_nil]
    | cons c cs =>
      cases f with
      | zero => simp at hf
      | succ f2 =>
        rw [subAuxF_cons_true]
        show (lowerChar c == x && startsWithCI xs (subAuxF f2 (isWordChar c) cs)) =
          (lowerChar c == x && startsWithCI xs cs)
        cases hq : (lowerChar c == x) with
        | false => simp
        | true =>
          have hcx : lowerChar c = x := by simpa using hq
          have hw : isWordChar c = true :=
            isWordChar_of_lowerChar_letter (hpat x (by simp)) hcx
          rw [hw]
          simp only [Bool.true_and]
          exact ih (fun y hy => hpat y (by simp [hy])) f2 cs (by simp at hf; omega)

lemma subAuxF_split : ∀ pat : List Char, lowerLetters pat → ∀ (f : Nat) (l : List Char),
    l.length ≤ f → startsWithCI pat l = true →
    subAuxF f true l = l.take pat.length ++ subAuxF (f - pat.length) true (l.drop pat.length) := by
  intro pat
  induction pat with
  | nil => intro _ f l _ _; simp
  | cons x xs ih =>
    intro hpat f l hf hs
    cases l with
    | nil => cases hs
    | cons c cs =>
      cases f with
      | zero => simp at hf
      | succ f2 =>
        have hx : lowerChar c = x ∧ startsWithCI xs cs = true := by
          simpa [startsWithCI, Bool.and_eq_true] using hs
        have hw := isWordChar_of_lowerChar_letter (hpat x (by simp)) hx.1
        rw [subAuxF_cons_true, hw]
        rw [ih (fun y hy => hpat y (by simp [hy])) f2 cs (by simp at hf; omega) hx.2]
        simp [Nat.succ_sub_succ]

lemma matchAt_false_cons (c : Char) (l : List Char) :
    matchAt false (c :: l) =
      if (lowerChar c == 's') && (startsWithCI orryL l && boundaryAfter (List.drop 4 l)) then
        some 5
      else if (lowerChar c == 'a') && startsWithCI pologizL l then
        some (8 + wordRun (List.drop 7 l))
      else none := by
  show (if startsWithCI sorryPatL (c :: l) && boundaryAfter (List.drop 5 (c :: l)) then some 5
    else if startsWithCI apologizL (c :: l) then some (8 + wordRun (List.drop 8 (c :: l)))
    else none) = _
  rw [show startsWithCI sorryPatL (c :: l) = (lowerChar c == 's' && startsWithCI orryL l) from
      rfl,
    show startsWithCI apologizL (c :: l) = (lowerChar c == 'a' && startsWithCI pologizL l) from
      rfl,
    show List.drop 5 (c :: l) = List.drop 4 l from rfl,
    show List.drop 8 (c :: l) = List.drop 7 l from rfl,
    Bool.and_assoc]

lemma matchAt_sub : ∀ (f : Nat) (p : Bool) (l : List Char), l.length ≤ f →
    matchAt p l = none → matchAt p (subAuxF f p l) = none := by
  intro f p l hf h
  cases p with
  | true => rfl
  | false =>
    cases l with
    | nil => rw [subAuxF_nil]; exact matchAt_nil false
    | cons c cs =>
      cases f with
      | zero => simp at hf
      | succ f2 =>
        have hle : cs.length ≤ f2 := by simp at hf; omega
        have hstep : subAuxF (f2 + 1) false (c :: cs) = c :: subAuxF f2 (isWordChar c) cs := by
          simp only [subAuxF, h]
        rw [hstep]
        cases hw : isWordChar c with
        | false => exact matchAt_nonword hw false _
        | true =>
          rw [matchAt_false_cons] at h ⊢
          cases hs : (lowerChar c == 's') with
          | false =>
            cases ha : (lowerChar c == 'a') with
            | false => simp [hs, ha]
            | true =>
              rw [hs, ha] at h
              simp only [Bool.false_and, Bool.true_and, if_false] at h
              have hpz : startsWithCI pologizL cs = false := by
                cases hq : startsWithCI pologizL cs with
                | false => rfl
                | true => rw [hq] at h; simp at h
              have hsub : startsWithCI pologizL (subAuxF f2 true cs) = false := by
                rw [startsWithCI_sub pologizL (by decide) f2 cs hle]
                exact hpz
              simp [hs, ha, hsub]
          | true =>
            have hcx : lowerChar c = 's' := by simpa using hs
            have ha : (lowerChar c == 'a') = false := by rw [hcx]; decide
            cases hor : startsWithCI orryL cs with
            | false =>
              have hsub : startsWithCI orryL (subAuxF f2 true cs) = false := by
                rw [startsWithCI_sub orryL (by decide) f2 cs hle]
                exact hor
              simp [hs, ha, hsub]
            | true =>
              have hbd : boundaryAfter (List.drop 4 cs) = false := by
                cases hq : boundaryAfter (List.drop 4 cs) with
                | false => rfl
                | true => rw [hs, hor, hq] at h; simp at h
              have h4 : 4 ≤ cs.length := by
                have := startsWithCI_le_length orryL cs hor
                simpa [orryL] using this
              have hsplit := subAuxF_split orryL (by decide) f2 cs hle hor
              have hlen4 : (cs.take 4).length = 4 := by
                rw [List.length_take]; omega
              have hdrop : List.drop 4 (subAuxF f2 true cs) =
                  subAuxF (f2 - 4) true (List.drop 4 cs) := by
                rw [show (orryL.length : Nat) = 4 from rfl] at hsplit
                rw [hsplit]
                exact List.drop_left' hlen4
              have hbd2 : boundaryAfter (subAuxF (f2 - 4) true (List.drop 4 cs)) = false := by
                cases hq : List.drop 4 cs with
                | nil => rw [hq] at hbd; cases hbd
                | cons d ds =>
                  rw [hq] at hbd
                  have hwd : isWordChar d = true := by simpa [boundaryAfter] using hbd
                  have hfl : (d :: ds).length ≤ f2 - 4 := by
                    have h5 := congrArg List.length hq
                    rw [List.length_drop] at h5
                    simp only [List.length_cons] at h5 ⊢
                    omega
                  obtain ⟨g, hg⟩ : ∃ g, f2 - 4 = g + 1 := by
                    cases hfq : f2 - 4 with
                    | zero => rw [hfq] at hfl; simp at hfl
                    | succ g => exact ⟨g, rfl⟩
                  rw [hg, subAuxF_cons_true]
                  simp [boundaryAfter, hwd]
              rw [hdrop]
              simp [hs, ha, hbd2]

lemma wordRun_boundary : ∀ l : List Char, boundaryAfter (List.drop (wordRun l) l) = true := by
  intro l
  induction l with
  | nil => rfl
  | cons d ds ih =>
    cases hd : isWordChar d with
    | true =>
      have hr : wordRun (d :: ds) = wordRun ds + 1 := by simp [wordRun, hd]
      rw [hr]
      simpa using ih
    | false =>
      have hr : wordRun (d :: ds) = 0 := by simp [wordRun, hd]
      rw [hr]
      simp [boundaryAfter, hd]

lemma matchAt_some_ge {p : Bool} {l : List Char} {n : Nat} (h : matchAt p l = some n) :
    5 ≤ n := by
  cases p with
  | true => cases h
  | false =>
    by_cases h1 : (startsWithCI sorryPatL l && boundaryAfter (List.drop 5 l)) = true
    · have h5 : some 5 = some n := by rw [← h]; simp [matchAt, h1]
      have := Option.some.inj h5
      omega
    · by_cases h2 : startsWithCI apologizL l = true
      · have : some (8 + wordRun (List.drop 8 l)) = some n := by
          rw [← h]; simp [matchAt, h1, h2]
        have hn := Option.some.inj this
        omega
      · have : (none : Option Nat) = some n := by rw [← h]; simp [matchAt, h1, h2]
        cases this

lemma matchAt_some_boundary {p : Bool} {l : List Char} {n : Nat} (h : matchAt p l = some n) :
    boundaryAfter (List.drop n l) = true := by
  cases p with
  | true => cases h
  | false =>
    by_cases h1 : (startsWithCI sorryPatL l && boundaryAfter (List.drop 5 l)) = true
    · have h5 : some 5 = some n := by rw [← h]; simp [matchAt, h1]
      have hn := Option.some.inj h5
      subst hn
      exact (Bool.and_eq_true .. |>.mp h1).2
    · by_cases h2 : startsWithCI apologizL l = true
      · have h8 : some (8 + wordRun (List.drop 8 l)) = some n := by
          rw [← h]; simp [matchAt, h1, h2]
        have hn := Option.some.inj h8
        subst hn
        rw [← List.drop_drop]
        exact wordRun_boundary (List.drop 8 l)
      · have : (none : Option Nat) = some n := by rw [← h]; simp [matchAt, h1, h2]
        cases this

lemma hasMatch_nonword_cons {d : Char} (hd : isWordChar d = false) (p : Bool)
    (u : List Char) : hasMatch p (d :: u) = hasMatch false u := by
  show ((matchAt p (d :: u)).isSome || hasMatch (isWordChar d) u) = hasMatch false u
  rw [matchAt_nonword hd, hd]
  rfl

lemma hasMatch_removed (p : Bool) (t : List Char) :
    hasMatch p (removedL ++ t) = hasMatch false t := by
  cases p <;> rfl

lemma hasMatch_subAuxF : ∀ (f : Nat) (p : Bool) (l : List Char), l.length ≤ f →
    hasMatch p (subAuxF f p l) = false := by
  intro f
  induction f with
  | zero => intro p l _; rfl
  | succ f2 ih =>
    intro p l hf
    cases l with
    | nil => rfl
    | cons c cs =>
      have hle : cs.length ≤ f2 := by simp at hf; omega
      cases hm : matchAt p (c :: cs) with
      | none =>
        have hstep : subAuxF (f2 + 1) p (c :: cs) = c :: subAuxF f2 (isWordChar c) cs := by
          simp only [subAuxF, hm]
        have h1 : matchAt p (subAuxF (f2 + 1) p (c :: cs)) = none :=
          matchAt_sub (f2 + 1) p (c :: cs) hf hm
        rw [hstep] at h1 ⊢
        show ((matchAt p (c :: subAuxF f2 (isWordChar c) cs)).isSome ||
          hasMatch (isWordChar c) (subAuxF f2 (isWordChar c) cs)) = false
        rw [h1, ih (isWordChar c) cs hle]
        rfl
      | some n =>
        have hstep : subAuxF (f2 + 1) p (c :: cs) =
            removedL ++ subAuxF f2 true (List.drop (n - 1) cs) := by
          simp only [subAuxF, hm]
        rw [hstep, hasMatch_removed]
        have h5 := matchAt_some_ge hm
        have hb := matchAt_some_boundary hm
        have hdrop : List.drop n (c :: cs) = List.drop (n - 1) cs := by
          obtain ⟨m, rfl⟩ : ∃ m, n = m + 1 := ⟨n - 1, by omega⟩
          simp
        rw [hdrop] at hb
        have hrest : (List.drop (n - 1) cs).length ≤ f2 := by
          rw [List.length_drop]; omega
        have ihr := ih true (List.drop (n - 1) cs) hrest
        cases hq : List.drop (n - 1) cs with
        | nil =>
          rw [subAuxF_nil]
          rfl
        | cons d ds =>
          rw [hq] at ihr hb
          have hwd : isWordChar d = false := by simpa [boundaryAfter] using hb
          have hfl : (d :: ds).length ≤ f2 := by rw [← hq]; exact hrest
          obtain ⟨g, hg⟩ : ∃ g, f2 = g + 1 := by
            cases f2 with
            | zero => simp at hfl
            | succ g => exact ⟨g, rfl⟩
          rw [hg, subAuxF_cons_true]
          rw [hg, subAuxF_cons_true] at ihr
          rw [hasMatch_nonword_cons hwd] at ihr ⊢
          exact ihr

lemma subAuxF_no_match : ∀ (f : Nat) (p : Bool) (l : List Char), l.length ≤ f →
    hasMatch p l = false → subAuxF f p l = l := by
  intro f
  induction f with
  | zero =>
    intro p l h _
    cases l with
    | nil => rfl
    | cons c cs => simp at h
  | succ f2 ih =>
    intro p l hf hm
    cases l with
    | nil => rfl
    | cons c cs =>
      have hle : cs.length ≤ f2 := by simp at hf; omega
      have hor : ((matchAt p (c :: cs)).isSome || hasMatch (isWordChar c) cs) = false := hm
      have hnone : matchAt p (c :: cs) = none := by
        cases hq : matchAt p (c :: cs) with
        | none => rfl
        | some n => rw [hq] at hor; simp at hor
      have htl : hasMatch (isWordChar c) cs = false := by
        rw [hnone] at hor
        simpa using hor
      have hstep : subAuxF (f2 + 1) p (c :: cs) = c :: subAuxF f2 (isWordChar c) cs := by
        simp only [subAuxF, hnone]
      rw [hstep, ih (isWordChar c) cs hle htl]

/-! ## Claim theorems: the output guard -/

/-- C2 counterexample: the word apology is a case-insensitive apolog
variant, yet guard_output leaves it untouched, because the compiled
pattern only covers the stem apologiz followed by word characters. -/
theorem guard_output_keeps_apology :
    guard_output "apology" = "apology" ∧ guard_output "apology" ≠ "(removed)" ∧
    guard_output "we make apologies" = "we make apologies" ∧
    guard_output "apologetic" = "apologetic" := by
  refine ⟨by decide, by decide, by decide, by decide⟩

/-- C2 as amended: guard_output replaces every case-insensitive whole-word
occurrence of the word given by sorryPatL and of any word beginning with
the stem given by apologizL with the marker given by removedL, so that no
match of the banned pattern remains in the output; words merely beginning
with apolog, such as apology, are outside the pattern and pass through. -/
theorem guard_output_no_banned_left (t : String) :
    hasMatch false (guard_output t).data = false ∧
    guard_output "We APOLOGIZE, SoRRy" = "We (removed), (removed)" ∧
    guard_output "apology" = "apology" := by
  refine ⟨?_, by decide, by decide⟩
  by_cases ht : t = ""
  · subst ht; decide
  · have hy : guard_output t = String.mk (subAuxF t.data.length false t.data) := by
      simp [guard_output, ht]
    rw [hy]
    exact hasMatch_subAuxF t.data.length false t.data (le_refl _)

/-- C8: the sanitizer is idempotent, because its output contains no match
of the banned pattern and the substitution is the identity on match-free
text; the empty input is returned unchanged. -/
theorem guard_output_idempotent (x : String) :
    guard_output (guard_output x) = guard_output x ∧ guard_output "" = "" := by
  refine ⟨?_, by decide⟩
  by_cases hx : x = ""
  · subst hx; decide
  · have hy : guard_output x = String.mk (subAuxF x.data.length false x.data) := by
      simp [guard_output, hx]
    rw [hy]
    by_cases hyz : String.mk (subAuxF x.data.length false x.data) = ""
    · rw [hyz]; decide
    · have h2 : guard_output (String.mk (subAuxF x.data.length false x.data)) =
          String.mk (subAuxF (subAuxF x.data.length false x.data).length false
            (subAuxF x.data.length false x.data)) := by
        unfold guard_output
        rw [if_neg hyz]
      rw [h2]
      have hnm : hasMatch false (subAuxF x.data.length false x.data) = false :=
        hasMatch_subAuxF x.data.length false x.data (le_refl _)
      rw [subAuxF_no_match _ false _ (le_refl _) hnm]
